/-
  Verification of the pypostester backtest engine specification.

  The Python source operates on polars Series of float64; here the numeric
  columns are idealised as exact rationals (ℚ) for the funding-curve layer
  and as real numbers (ℝ) for the indicator layer (which uses sqrt / rpow).
  Timestamps are idealised as integers (seconds).
-/
import Mathlib

namespace PyPosTester

/-! ## Funding curve builder (PositionBacktester._calculate_funding_curve)

    `merged_df["close"].pct_change().fill_null(0)` and friends, on ℚ lists. -/

/-- Embedding of `close.pct_change().fill_null(0)`: the leading null becomes 0,
    entry `t ≥ 1` is `close[t]/close[t-1] - 1`. -/
def pctChange (close : List ℚ) : List ℚ :=
  match close with
  | [] => []
  | _ :: rest => 0 :: List.zipWith (fun prev cur => cur / prev - 1) close rest

/-- Embedding of `position.shift(1).fill_null(0)`. -/
def shiftFill0 (pos : List ℚ) : List ℚ :=
  match pos with
  | [] => []
  | _ :: _ => 0 :: pos.dropLast

/-- Embedding of `position.diff().abs().fill_null(0)`. -/
def diffAbsFill0 (pos : List ℚ) : List ℚ :=
  match pos with
  | [] => []
  | _ :: _ => 0 :: List.zipWith (fun prev cur => |cur - prev|) pos pos.tail

/-- Embedding of `position_returns - transaction_costs` with
    `position_returns = returns * position.shift(1).fill_null(0)` and
    `transaction_costs = position.diff().abs().fill_null(0) * commission`. -/
def netReturns (close pos : List ℚ) (commission : ℚ) : List ℚ :=
  List.zipWith (fun a b => a - b)
    (List.zipWith (· * ·) (pctChange close) (shiftFill0 pos))
    ((diffAbsFill0 pos).map (· * commission))

/-- Helper for `cum_prod`: strictly left-to-right accumulation. -/
def cumProdGo (acc : ℚ) : List ℚ → List ℚ
  | [] => []
  | x :: xs => (acc * x) :: cumProdGo (acc * x) xs

/-- Embedding of `Series.cum_prod()`. -/
def cumProd (l : List ℚ) : List ℚ := cumProdGo 1 l

/-- Embedding of `funding_curve = (1 + net_returns).cum_prod()`. -/
def fundingCurve (close pos : List ℚ) (commission : ℚ) : List ℚ :=
  cumProd ((netReturns close pos commission).map (fun r => 1 + r))

/-- Embedding of `TotalReturn.calculate` core formula on a raw curve:
    `curve.tail(1)[0] / curve[0] - 1`. -/
def totalReturnOf (curve : List ℚ) : ℚ :=
  curve.getLastD 0 / curve.headI - 1

/-! ### Length and index lemmas for the funding-curve pipeline -/

theorem getD_zipWith (f : ℚ → ℚ → ℚ) :
    ∀ (l₁ l₂ : List ℚ) (i : ℕ), i < l₁.length → i < l₂.length →
      (List.zipWith f l₁ l₂).getD i 0 = f (l₁.getD i 0) (l₂.getD i 0)
  | [], _, i, h₁, _ => absurd h₁ (by simp)
  | _ :: _, [], i, _, h₂ => absurd h₂ (by simp)
  | a :: l₁, b :: l₂, 0, _, _ => rfl
  | a :: l₁, b :: l₂, i + 1, h₁, h₂ =>
    getD_zipWith f l₁ l₂ i (Nat.lt_of_succ_lt_succ h₁) (Nat.lt_of_succ_lt_succ h₂)

theorem getD_map_add_one (l : List ℚ) (i : ℕ) (h : i < l.length) :
    (l.map (fun r => 1 + r)).getD i 0 = 1 + l.getD i 0 := by
  induction l generalizing i with
  | nil => simp at h
  | cons a l ih =>
    cases i with
    | zero => rfl
    | succ i => exact ih i (Nat.lt_of_succ_lt_succ h)

theorem pctChange_length (close : List ℚ) : (pctChange close).length = close.length := by
  cases close with
  | nil => rfl
  | cons c rest => simp [pctChange]

theorem shiftFill0_length (pos : List ℚ) : (shiftFill0 pos).length = pos.length := by
  cases pos with
  | nil => rfl
  | cons p rest => simp [shiftFill0]

theorem diffAbsFill0_length (pos : List ℚ) : (diffAbsFill0 pos).length = pos.length := by
  cases pos with
  | nil => rfl
  | cons p rest => simp [diffAbsFill0]

theorem netReturns_length (close pos : List ℚ) (c : ℚ) (hlen : pos.length = close.length) :
    (netReturns close pos c).length = close.length := by
  simp [netReturns, pctChange_length, shiftFill0_length, diffAbsFill0_length, hlen]

theorem cumProdGo_length (acc : ℚ) (l : List ℚ) : (cumProdGo acc l).length = l.length := by
  induction l generalizing acc with
  | nil => rfl
  | cons x xs ih => simp [cumProdGo, ih]

theorem cumProd_length (l : List ℚ) : (cumProd l).length = l.length :=
  cumProdGo_length 1 l

theorem fundingCurve_length (close pos : List ℚ) (c : ℚ) (hlen : pos.length = close.length) :
    (fundingCurve close pos c).length = close.length := by
  simp [fundingCurve, cumProd_length, netReturns_length close pos c hlen]

theorem pctChange_getD_zero (close : List ℚ) (h : close ≠ []) :
    (pctChange close).getD 0 0 = 0 := by
  cases close with
  | nil => exact absurd rfl h
  | cons c rest => rfl

theorem pctChange_getD_succ (close : List ℚ) (j : ℕ) (h : j + 1 < close.length) :
    (pctChange close).getD (j + 1) 0 = close.getD (j + 1) 0 / close.getD j 0 - 1 := by
  cases close with
  | nil => simp at h
  | cons c rest =>
    show (List.zipWith (fun prev cur => cur / prev - 1) (c :: rest) rest).getD j 0 = _
    have hr : j < rest.length := Nat.lt_of_succ_lt_succ (by simpa using h)
    have hc : j < (c :: rest).length := Nat.lt_of_le_of_lt (Nat.le_succ j) (by simpa using h)
    rw [getD_zipWith _ _ _ j hc hr]
    rfl

theorem shiftFill0_getD_zero (pos : List ℚ) (h : pos ≠ []) :
    (shiftFill0 pos).getD 0 0 = 0 := by
  cases pos with
  | nil => exact absurd rfl h
  | cons p rest => rfl

theorem dropLast_getD (l : List ℚ) (j : ℕ) (h : j + 1 < l.length) :
    l.dropLast.getD j 0 = l.getD j 0 := by
  induction l generalizing j with
  | nil => simp at h
  | cons a l ih =>
    cases l with
    | nil => simp at h
    | cons b l' =>
      cases j with
      | zero => rfl
      | succ j => exact ih j (Nat.lt_of_succ_lt_succ h)

theorem shiftFill0_getD_succ (pos : List ℚ) (j : ℕ) (h : j + 1 < pos.length) :
    (shiftFill0 pos).getD (j + 1) 0 = pos.getD j 0 := by
  cases pos with
  | nil => simp at h
  | cons p rest =>
    show (p :: rest).dropLast.getD j 0 = (p :: rest).getD j 0
    exact dropLast_getD (p :: rest) j h

theorem diffAbsFill0_getD_zero (pos : List ℚ) (h : pos ≠ []) :
    (diffAbsFill0 pos).getD 0 0 = 0 := by
  cases pos with
  | nil => exact absurd rfl h
  | cons p rest => rfl

theorem diffAbsFill0_getD_succ (pos : List ℚ) (j : ℕ) (h : j + 1 < pos.length) :
    (diffAbsFill0 pos).getD (j + 1) 0 = |pos.getD (j + 1) 0 - pos.getD j 0| := by
  cases pos with
  | nil => simp at h
  | cons p rest =>
    show (List.zipWith (fun prev cur => |cur - prev|) (p :: rest) rest).getD j 0 = _
    have hr : j < rest.length := Nat.lt_of_succ_lt_succ (by simpa using h)
    have hc : j < (p :: rest).length := Nat.lt_of_le_of_lt (Nat.le_succ j) (by simpa using h)
    rw [getD_zipWith _ _ _ j hc hr]
    rfl

theorem getD_map_mul (l : List ℚ) (c : ℚ) (i : ℕ) (h : i < l.length) :
    (l.map (· * c)).getD i 0 = l.getD i 0 * c := by
  induction l generalizing i with
  | nil => simp at h
  | cons a l ih =>
    cases i with
    | zero => rfl
    | succ i => exact ih i (Nat.lt_of_succ_lt_succ h)

theorem netReturns_getD_zero (close pos : List ℚ) (c : ℚ)
    (hlen : pos.length = close.length) (hne : close ≠ []) :
    (netReturns close pos c).getD 0 0 = 0 := by
  have hpne : pos ≠ [] := by
    intro h; rw [h] at hlen; exact hne (List.eq_nil_of_length_eq_zero hlen.symm)
  have h0 : 0 < close.length := List.length_pos.mpr hne
  unfold netReturns
  rw [getD_zipWith, getD_zipWith, pctChange_getD_zero close hne,
    shiftFill0_getD_zero pos hpne, getD_map_mul, diffAbsFill0_getD_zero pos hpne]
  · ring
  · rwa [diffAbsFill0_length, hlen]
  · rwa [pctChange_length]
  · rwa [shiftFill0_length, hlen]
  · rw [List.length_zipWith, pctChange_length, shiftFill0_length, hlen]
    simpa using h0
  · rwa [List.length_map, diffAbsFill0_length, hlen]

theorem netReturns_getD_succ (close pos : List ℚ) (c : ℚ)
    (hlen : pos.length = close.length) (j : ℕ) (h : j + 1 < close.length) :
    (netReturns close pos c).getD (j + 1) 0 =
      (close.getD (j + 1) 0 / close.getD j 0 - 1) * pos.getD j 0 -
        |pos.getD (j + 1) 0 - pos.getD j 0| * c := by
  have hp : j + 1 < pos.length := by rwa [hlen]
  unfold netReturns
  rw [getD_zipWith, getD_zipWith, pctChange_getD_succ close j h,
    shiftFill0_getD_succ pos j hp, getD_map_mul, diffAbsFill0_getD_succ pos j hp]
  · rwa [diffAbsFill0_length]
  · rwa [pctChange_length]
  · rwa [shiftFill0_length]
  · rw [List.length_zipWith, pctChange_length, shiftFill0_length, hlen]
    simpa using h
  · rwa [List.length_map, diffAbsFill0_length]

theorem cumProdGo_getD (acc : ℚ) (l : List ℚ) (t : ℕ) (h : t < l.length) :
    (cumProdGo acc l).getD t 0 = acc * (l.take (t + 1)).prod := by
  induction l generalizing acc t with
  | nil => simp at h
  | cons x xs ih =>
    cases t with
    | zero => simp [cumProdGo]
    | succ t =>
      have := ih (acc * x) t (Nat.lt_of_succ_lt_succ h)
      simp only [cumProdGo, List.getD_cons_succ, List.take_succ_cons, List.prod_cons]
      rw [this]; ring

theorem cumProd_getD (l : List ℚ) (t : ℕ) (h : t < l.length) :
    (cumProd l).getD t 0 = (l.take (t + 1)).prod := by
  rw [cumProd, cumProdGo_getD 1 l t h, one_mul]

theorem fundingCurve_getD (close pos : List ℚ) (c : ℚ)
    (hlen : pos.length = close.length) (t : ℕ) (h : t < close.length) :
    (fundingCurve close pos c).getD t 0 =
      (((netReturns close pos c).map (fun r => 1 + r)).take (t + 1)).prod := by
  unfold fundingCurve
  rw [cumProd_getD]
  rw [List.length_map, netReturns_length close pos c hlen]
  exact h

theorem take_prod_pos : ∀ (l : List ℚ) (n : ℕ), n ≤ l.length →
    (∀ k, k < n → 0 < l.getD k 0) → 0 < (l.take n).prod
  | _, 0, _, _ => by simp
  | [], n + 1, hn, _ => by simp at hn
  | x :: xs, n + 1, hn, h => by
    simp only [List.take_succ_cons, List.prod_cons]
    have hx : 0 < x := h 0 (Nat.succ_pos n)
    have hrest := take_prod_pos xs n (Nat.le_of_succ_le_succ hn)
      (fun k hk => h (k + 1) (Nat.succ_lt_succ hk))
    exact mul_pos hx hrest

/-- C1: for an aligned input with `n ≥ 1` rows and strictly positive close,
    `_calculate_funding_curve` returns `returns` with `returns[0] = 0` and
    `returns[t] = (close[t]/close[t-1] - 1) * position[t-1] - |position[t] - position[t-1]| * c`
    for `t ≥ 1`, and `funding_curve[t]` is the left-to-right running product of
    `(1 + returns[k])` for `k = 0..t`; in particular on close = [100, 110, 99],
    position = [1, 1, 1], commission = 0 the returns are [0, 1/10, -1/10], the
    funding curve is [1, 11/10, 99/100] and the total return is -1/100. -/
theorem C1_funding_curve_formula (close pos : List ℚ) (c : ℚ)
    (hlen : pos.length = close.length) (hne : close ≠ [])
    (hpos : ∀ x ∈ close, 0 < x) :
    ((netReturns close pos c).length = close.length ∧
      (fundingCurve close pos c).length = close.length) ∧
    ((netReturns close pos c).getD 0 0 = 0 ∧
      ∀ j, j + 1 < close.length →
        (netReturns close pos c).getD (j + 1) 0 =
          (close.getD (j + 1) 0 / close.getD j 0 - 1) * pos.getD j 0 -
            |pos.getD (j + 1) 0 - pos.getD j 0| * c) ∧
    (∀ t, t < close.length →
      (fundingCurve close pos c).getD t 0 =
        (((netReturns close pos c).map (fun r => 1 + r)).take (t + 1)).prod) ∧
    (netReturns [100, 110, 99] [1, 1, 1] 0 = [0, 1/10, -(1/10)] ∧
      fundingCurve [100, 110, 99] [1, 1, 1] 0 = [1, 11/10, 99/100] ∧
      totalReturnOf (fundingCurve [100, 110, 99] [1, 1, 1] 0) = -(1/100)) := by
  refine ⟨⟨netReturns_length close pos c hlen, fundingCurve_length close pos c hlen⟩,
    ⟨netReturns_getD_zero close pos c hlen hne,
      fun j hj => netReturns_getD_succ close pos c hlen j hj⟩,
    fun t ht => fundingCurve_getD close pos c hlen t ht, ?_, ?_, ?_⟩
  · norm_num [netReturns, pctChange, shiftFill0, diffAbsFill0]
  · norm_num [fundingCurve, cumProd, cumProdGo, netReturns, pctChange, shiftFill0,
      diffAbsFill0]
  · norm_num [totalReturnOf, fundingCurve, cumProd, cumProdGo, netReturns, pctChange,
      shiftFill0, diffAbsFill0]

/-- C1 witness: the general theorem applied at the concrete round-trip scenario. -/
theorem C1_funding_curve_formula_witness :
    netReturns [100, 110, 99] [1, 1, 1] 0 = [0, 1/10, -(1/10)] ∧
      fundingCurve [100, 110, 99] [1, 1, 1] 0 = [1, 11/10, 99/100] ∧
      totalReturnOf (fundingCurve [100, 110, 99] [1, 1, 1] 0) = -(1/100) :=
  (C1_funding_curve_formula [100, 110, 99] [1, 1, 1] 0 (by decide) (by decide)
    (by norm_num)).2.2.2

/-- C2: if no per-period net return at or before `t` is `≤ -1`
    (`1 + net_return[k] > 0` for all `k ≤ t`), then `funding_curve[t] > 0`. -/
theorem C2_funding_curve_positive (close pos : List ℚ) (c : ℚ)
    (hlen : pos.length = close.length) (t : ℕ) (ht : t < close.length)
    (h : ∀ k, k ≤ t → 0 < 1 + (netReturns close pos c).getD k 0) :
    0 < (fundingCurve close pos c).getD t 0 := by
  rw [fundingCurve_getD close pos c hlen t ht]
  apply take_prod_pos
  · rw [List.length_map, netReturns_length close pos c hlen]
    exact ht
  · intro k hk
    rw [getD_map_add_one]
    · exact h k (Nat.le_of_lt_succ hk)
    · rw [netReturns_length close pos c hlen]
      exact Nat.lt_of_lt_of_le hk ht

/-- C2 witness: positivity of the funding curve at the final index of the
    concrete round-trip scenario. -/
theorem C2_funding_curve_positive_witness :
    0 < (fundingCurve [100, 110, 99] [1, 1, 1] 0).getD 2 0 :=
  C2_funding_curve_positive [100, 110, 99] [1, 1, 1] 0 (by decide) 2 (by decide)
    (by
      intro k hk
      interval_cases k <;>
        norm_num [netReturns, pctChange, shiftFill0, diffAbsFill0, List.getD])

/-! ## Indicator registry (IndicatorRegistry, indicators/registry.py)

    An indicator is registered under its `name` with its `requires` set.
    `requires` is a Python `set`; it is embedded as a list in a fixed
    iteration order (order-insensitivity of the dependency sort for the
    builtin registry is proved below). -/

/-- Embedding of a registered indicator: its name and its `requires` set. -/
structure IndicatorDecl where
  name : String
  requires : List String
deriving DecidableEq

/-- Builtin registry contents after `_register_builtin_indicators`:
    `inspect.getmembers` yields the indicator classes of
    `pypostester/indicators/indicators.py` sorted by class name
    (AnnualReturn, AvgDrawdown, MaxDrawdown, MaxDrawdownDuration,
    ProfitLossRatio, SharpeRatio, TotalReturn, Volatility, WinRate), and the
    registry dict keyed by `indicator.name` preserves that insertion order. -/
def builtinIndicators : List IndicatorDecl :=
  [ ⟨"annual_return", ["total_return"]⟩,
    ⟨"avg_drawdown", []⟩,
    ⟨"max_drawdown", []⟩,
    ⟨"max_drawdown_duration", ["max_drawdown"]⟩,
    ⟨"profit_loss_ratio", []⟩,
    ⟨"sharpe_ratio", ["annual_return", "volatility"]⟩,
    ⟨"total_return", []⟩,
    ⟨"volatility", []⟩,
    ⟨"win_rate", []⟩ ]

/-- The builtin registry with the one multi-element `requires` set iterated in
    the opposite order (Python set iteration order is unspecified). -/
def builtinIndicatorsAlt : List IndicatorDecl :=
  builtinIndicators.map (fun d =>
    if d.name = "sharpe_ratio" then ⟨d.name, ["volatility", "annual_return"]⟩ else d)

/-- Embedding of the recursive `visit` of `_sort_indicators_by_dependency`,
    fuel-bounded: state is (visited, sorted_indicators); a dependency is
    visited only when present in the registry.  The `find? = none` branch is
    unreachable (`visit` is only entered for registered names); the source
    would raise `KeyError` there. -/
def visitDFS (reg : List IndicatorDecl) :
    ℕ → List String × List String → String → List String × List String
  | 0, st, _ => st
  | fuel + 1, (vis, out), name =>
    if name ∈ vis then (vis, out)
    else
      match reg.find? (fun d => d.name = name) with
      | none => (name :: vis, out)
      | some d =>
        let st := d.requires.foldl
          (fun st dep =>
            if (reg.find? (fun e => e.name = dep)).isSome then visitDFS reg fuel st dep
            else st)
          (name :: vis, out)
        (st.1, st.2 ++ [name])

/-- Embedding of `_sort_indicators_by_dependency`: visit every registered name
    in registration order.  Nested visits strictly grow the visited set, so
    `reg.length + 1` fuel never runs out on a duplicate-free registry. -/
def sortIndicatorsByDependency (reg : List IndicatorDecl) : List String :=
  (reg.foldl (fun st d => visitDFS reg (reg.length + 1) st d.name) ([], [])).2

/-- Embedding of the `sorted_indicators` property of the builtin registry. -/
def sortedBuiltin : List String := sortIndicatorsByDependency builtinIndicators

/-- Embedding of the `available_indicators` property (registered names).  The
    source returns them sorted alphabetically; for the builtin registry the
    registration order is already alphabetical, and only membership in this
    list is ever used by the validation logic. -/
def availableIndicators (reg : List IndicatorDecl) : List String :=
  reg.map (·.name)

/-- A value of the `indicators` constructor argument: the sentinel string
    `"all"` (or any other string) or an explicit list of names. -/
inductive Sel where
  | str (s : String)
  | list (names : List String)
deriving DecidableEq

/-- Total length of all `requires` lists: a fuel bound for the dependency
    expansion worklist of `validate_indicators`. -/
def totalRequiresLen (reg : List IndicatorDecl) : ℕ :=
  (reg.map (fun d => d.requires.length)).sum

/-- Embedding of the `while pending_indicators` worklist of
    `validate_indicators`.  `pending` is the Python list reversed, so that
    `list.pop()` (pop from the end) is head-removal; a freshly discovered
    dependency is pushed on top.  A pending name absent from the registry
    would make the source raise; that branch is unreachable because every
    pushed name was validated or comes from a registered indicator. -/
def expandLoop (reg : List IndicatorDecl) :
    ℕ → List String → List String → List String
  | 0, req, _ => req
  | _ + 1, req, [] => req
  | fuel + 1, req, ind :: pending =>
    let st :=
      match reg.find? (fun d => d.name = ind) with
      | none => (req, pending)
      | some d =>
        d.requires.foldl
          (fun st dep => if dep ∈ st.1 then st else (dep :: st.1, dep :: st.2))
          (req, pending)
    expandLoop reg fuel st.1 st.2

/-- Embedding of `validate_indicators`: `"all"` yields the full sorted list;
    any other non-list value is rejected; for a list, unknown names are
    rejected, the set is expanded with transitive dependencies, and the result
    is the full-registry topological order restricted to the expansion. -/
def validateIndicators (reg : List IndicatorDecl) (sel : Sel) :
    Except String (List String) :=
  match sel with
  | Sel.str s =>
    if s = "all" then Except.ok (sortIndicatorsByDependency reg)
    else Except.error "Indicators must be all or a list of indicator names"
  | Sel.list names =>
    match names.filter (fun n => !((availableIndicators reg).contains n)) with
    | _ :: _ => Except.error "Invalid indicator names"
    | [] =>
      let required :=
        expandLoop reg (names.length + totalRequiresLen reg + 1) names names.reverse
      Except.ok ((sortIndicatorsByDependency reg).filter (fun n => required.contains n))

/-- Embedding of the exposure filter of `_calculate_indicators`: every name of
    the validated sorted list is computed, but a name is emitted into the
    result only when `self.indicators == "all"` or the name was explicitly
    requested (`indicator in self.indicators`).  A constructed backtester can
    only hold the string `"all"` as a string-valued selection. -/
def exposedIndicatorNames (sortedSel : List String) (sel : Sel) : List String :=
  match sel with
  | Sel.str _ => sortedSel
  | Sel.list names => sortedSel.filter (fun ind => names.contains ind)

/-- Embedding of the `indicators` entry of the `params` property:
    `"all" if self.indicators == "all" else list(self.sorted_indicators)`. -/
def paramsIndicatorsEntry (sel : Sel) (sortedSel : List String) : Sel :=
  if sel = Sel.str "all" then Sel.str "all" else Sel.list sortedSel

/-- C4: in the registry as auto-registered, every `requires` dependency of an
    indicator appears strictly before it in `sorted_indicators`; the order is
    the deterministic list below (ties among independents following the
    registration order), and it is insensitive to the iteration order of the
    one multi-element `requires` set. -/
theorem C4_dependency_order :
    (∀ d ∈ builtinIndicators, ∀ dep ∈ d.requires,
        dep ∈ sortedBuiltin ∧ d.name ∈ sortedBuiltin ∧
          sortedBuiltin.indexOf dep < sortedBuiltin.indexOf d.name) ∧
    sortedBuiltin =
      ["total_return", "annual_return", "avg_drawdown", "max_drawdown",
       "max_drawdown_duration", "profit_loss_ratio", "volatility", "sharpe_ratio",
       "win_rate"] ∧
    sortIndicatorsByDependency builtinIndicatorsAlt = sortedBuiltin :=
  ⟨by decide, by decide, by decide⟩

/-- C4 witness: `sharpe_ratio` with `requires = {annual_return, volatility}`
    appears strictly after `annual_return`. -/
theorem C4_dependency_order_witness :
    "annual_return" ∈ sortedBuiltin ∧ "sharpe_ratio" ∈ sortedBuiltin ∧
      sortedBuiltin.indexOf "annual_return" < sortedBuiltin.indexOf "sharpe_ratio" :=
  C4_dependency_order.1 ⟨"sharpe_ratio", ["annual_return", "volatility"]⟩ (by decide)
    "annual_return" (by decide)

/-- C5: requesting `indicators = ["sharpe_ratio"]` validates to the
    dependency-expanded list `[total_return, annual_return, volatility,
    sharpe_ratio]` in full-registry topological order (so `annual_return` and
    `volatility` are computed), the run result exposes exactly
    `["sharpe_ratio"]`, and any selection containing an unregistered name is
    rejected at construction. -/
theorem C5_indicator_selection :
    validateIndicators builtinIndicators (Sel.list ["sharpe_ratio"]) =
      Except.ok ["total_return", "annual_return", "volatility", "sharpe_ratio"] ∧
    "annual_return" ∈ (["total_return", "annual_return", "volatility",
      "sharpe_ratio"] : List String) ∧
    "volatility" ∈ (["total_return", "annual_return", "volatility",
      "sharpe_ratio"] : List String) ∧
    exposedIndicatorNames ["total_return", "annual_return", "volatility", "sharpe_ratio"]
        (Sel.list ["sharpe_ratio"]) = ["sharpe_ratio"] ∧
    ∀ names : List String, (∃ n ∈ names, n ∉ availableIndicators builtinIndicators) →
      ∃ msg, validateIndicators builtinIndicators (Sel.list names) = Except.error msg := by
  refine ⟨rfl, by decide, by decide, by decide, ?_⟩
  rintro names ⟨n, hn, hnav⟩
  have hmem : n ∈ names.filter
      (fun m => !((availableIndicators builtinIndicators).contains m)) :=
    List.mem_filter.mpr ⟨hn, by simpa using hnav⟩
  refine ⟨"Invalid indicator names", ?_⟩
  simp only [validateIndicators]
  cases hf : names.filter
      (fun m => !((availableIndicators builtinIndicators).contains m)) with
  | nil => rw [hf] at hmem; cases hmem
  | cons a as => rfl

/-- C5 witness: the general invalid-name clause applied to the selection
    `["bogus"]`. -/
theorem C5_indicator_selection_witness :
    ∃ msg, validateIndicators builtinIndicators (Sel.list ["bogus"]) =
      Except.error msg :=
  C5_indicator_selection.2.2.2.2 ["bogus"] ⟨"bogus", by decide, by decide⟩

/-- C9 counterexample: none of `calmar_ratio`, `sortino_ratio`,
    `monthly_returns` is in the auto-registered builtin catalog, and a run with
    `indicators = "all"` computes none of them. -/
theorem C9_catalog_counterexample :
    "calmar_ratio" ∉ availableIndicators builtinIndicators ∧
    "sortino_ratio" ∉ availableIndicators builtinIndicators ∧
    "monthly_returns" ∉ availableIndicators builtinIndicators ∧
    validateIndicators builtinIndicators (Sel.str "all") = Except.ok sortedBuiltin ∧
    "calmar_ratio" ∉ sortedBuiltin ∧ "sortino_ratio" ∉ sortedBuiltin ∧
    "monthly_returns" ∉ sortedBuiltin :=
  ⟨by decide, by decide, by decide, rfl, by decide, by decide, by decide⟩

/-- C9 amended: the auto-registered builtin catalog consists exactly of the
    nine indicators of `indicators/indicators.py`, and `indicators = "all"`
    computes exactly those nine in dependency order. -/
theorem C9_amended_catalog :
    availableIndicators builtinIndicators =
      ["annual_return", "avg_drawdown", "max_drawdown", "max_drawdown_duration",
       "profit_loss_ratio", "sharpe_ratio", "total_return", "volatility",
       "win_rate"] ∧
    validateIndicators builtinIndicators (Sel.str "all") =
      Except.ok
        ["total_return", "annual_return", "avg_drawdown", "max_drawdown",
         "max_drawdown_duration", "profit_loss_ratio", "volatility", "sharpe_ratio",
         "win_rate"] :=
  ⟨rfl, rfl⟩

/-- C10: with an explicit selection `["sharpe_ratio"]` the `params` property
    reports the dependency-expanded, topologically sorted list (containing
    `total_return`, a name the caller never requested); with `"all"` it
    reports the literal string `"all"`. -/
theorem C10_params_indicators_entry :
    validateIndicators builtinIndicators (Sel.list ["sharpe_ratio"]) =
      Except.ok ["total_return", "annual_return", "volatility", "sharpe_ratio"] ∧
    paramsIndicatorsEntry (Sel.list ["sharpe_ratio"])
        ["total_return", "annual_return", "volatility", "sharpe_ratio"] =
      Sel.list ["total_return", "annual_return", "volatility", "sharpe_ratio"] ∧
    "total_return" ∉ (["sharpe_ratio"] : List String) ∧
    paramsIndicatorsEntry (Sel.str "all") sortedBuiltin = Sel.str "all" :=
  ⟨rfl, by decide, by decide, by decide⟩

/-! ## Input validation and run (utils/validation.py, PositionBacktester.run)

    A table is a list of (timestamp, value) rows; timestamps are idealised as
    integers (seconds).  Schema and dtype checks of
    `validate_and_convert_input` are structural in this embedding (a
    `List (ℤ × ℚ)` always has both columns, with a temporal time column). -/

/-- Helper for the re-sort of an unsorted input: ordered insertion by time. -/
def insertByTime {α : Type} (r : ℤ × α) : List (ℤ × α) → List (ℤ × α)
  | [] => [r]
  | s :: ss => if r.1 ≤ s.1 then r :: s :: ss else s :: insertByTime r ss

/-- Embedding of `df.sort("time")`. -/
def sortByTime {α : Type} : List (ℤ × α) → List (ℤ × α)
  | [] => []
  | r :: rs => insertByTime r (sortByTime rs)

/-- Embedding of `Series.is_sorted()` (non-strict ascending). -/
def timeSorted {α : Type} : List (ℤ × α) → Bool
  | [] => true
  | [_] => true
  | r :: s :: ss => decide (r.1 ≤ s.1) && timeSorted (s :: ss)

/-- Embedding of the position value-range check of
    `validate_and_convert_input`: fail when any value lies outside [-1, 1]. -/
def validatePositionRange (tbl : List (ℤ × ℚ)) : Except String (List (ℤ × ℚ)) :=
  if tbl.any (fun r => decide (r.2 < -1) || decide (1 < r.2)) then
    Except.error "Position values must be between -1 and 1"
  else Except.ok tbl

/-- Embedding of `validate_and_convert_input(df, "position")`: re-sort by time
    when unsorted, then fail when any position value lies outside [-1, 1]. -/
def validateConvertPosition (tbl : List (ℤ × ℚ)) : Except String (List (ℤ × ℚ)) :=
  validatePositionRange (if timeSorted tbl then tbl else sortByTime tbl)

/-- Embedding of `validate_time_alignment`: the two timestamp sets must be
    exactly equal. -/
def validateTimeAlignment (closeTbl posTbl : List (ℤ × ℚ)) : Except String Unit :=
  if (closeTbl.map Prod.fst).toFinset = (posTbl.map Prod.fst).toFinset then
    Except.ok ()
  else Except.error "Close and position data must have identical timestamps"

/-- Embedding of the inner join on `time` (first matching position row per
    close row; validated inputs have unique timestamps). -/
def innerJoin (closeTbl posTbl : List (ℤ × ℚ)) : List (ℤ × ℚ × ℚ) :=
  closeTbl.filterMap (fun r => (posTbl.lookup r.1).map (fun p => (r.1, r.2, p)))

/-- Embedding of `PositionBacktester.run` up to the funding-curve table
    `{time, funding_curve, returns}`: position validation, time-alignment
    validation (both wrapped into the boundary `Invalid position input` error),
    inner join sorted by time, then `_calculate_funding_curve`.  Indicator
    evaluation consumes this table downstream. -/
def runModel (closeTbl : List (ℤ × ℚ)) (commission : ℚ)
    (posTblRaw : List (ℤ × ℚ)) : Except String (List (ℤ × ℚ × ℚ)) :=
  match validateConvertPosition posTblRaw with
  | Except.error e => Except.error ("Invalid position input: " ++ e)
  | Except.ok posTbl =>
    match validateTimeAlignment closeTbl posTbl with
    | Except.error e => Except.error ("Invalid position input: " ++ e)
    | Except.ok _ =>
      let merged := sortByTime (innerJoin closeTbl posTbl)
      let closeCol := merged.map (fun r => r.2.1)
      let posCol := merged.map (fun r => r.2.2)
      Except.ok ((merged.map Prod.fst).zip
        ((fundingCurve closeCol posCol commission).zip
          (netReturns closeCol posCol commission)))

theorem mem_insertByTime {α : Type} (r a : ℤ × α) (l : List (ℤ × α)) :
    a ∈ insertByTime r l ↔ a = r ∨ a ∈ l := by
  induction l with
  | nil => simp [insertByTime]
  | cons s ss ih =>
    simp only [insertByTime]
    split
    · simp
    · simp only [List.mem_cons, ih]
      tauto

theorem mem_sortByTime {α : Type} (a : ℤ × α) (l : List (ℤ × α)) :
    a ∈ sortByTime l ↔ a ∈ l := by
  induction l with
  | nil => simp [sortByTime]
  | cons r rs ih => simp [sortByTime, mem_insertByTime, ih]

theorem sortByTime_timeset {α : Type} (l : List (ℤ × α)) :
    ((sortByTime l).map Prod.fst).toFinset = (l.map Prod.fst).toFinset := by
  ext t
  simp only [List.mem_toFinset, List.mem_map]
  constructor
  · rintro ⟨a, ha, hta⟩
    exact ⟨a, (mem_sortByTime a l).mp ha, hta⟩
  · rintro ⟨a, ha, hta⟩
    exact ⟨a, (mem_sortByTime a l).mpr ha, hta⟩

theorem validatePositionRange_ok (tbl out : List (ℤ × ℚ))
    (h : validatePositionRange tbl = Except.ok out) : out = tbl := by
  unfold validatePositionRange at h
  split at h
  · cases h
  · cases h; rfl

theorem validateConvertPosition_timeset (tbl out : List (ℤ × ℚ))
    (h : validateConvertPosition tbl = Except.ok out) :
    (out.map Prod.fst).toFinset = (tbl.map Prod.fst).toFinset := by
  unfold validateConvertPosition at h
  by_cases hs : timeSorted tbl
  · rw [if_pos hs] at h
    rw [validatePositionRange_ok tbl out h]
  · rw [if_neg hs] at h
    rw [validatePositionRange_ok (sortByTime tbl) out h]
    exact sortByTime_timeset tbl

/-- C3: if the close and position timestamp sets are not exactly equal, `run`
    returns the boundary invalid-argument error before any funding-curve
    computation; no result is produced and no misaligned row is silently
    dropped by the join. -/
theorem C3_misalignment_rejected (closeTbl posTblRaw : List (ℤ × ℚ)) (c : ℚ)
    (h : (closeTbl.map Prod.fst).toFinset ≠ (posTblRaw.map Prod.fst).toFinset) :
    ∃ msg, runModel closeTbl c posTblRaw = Except.error msg := by
  unfold runModel
  cases hv : validateConvertPosition posTblRaw with
  | error e => exact ⟨_, rfl⟩
  | ok posTbl =>
    have hts := validateConvertPosition_timeset posTblRaw posTbl hv
    have hne : (closeTbl.map Prod.fst).toFinset ≠ (posTbl.map Prod.fst).toFinset := by
      rw [hts]; exact h
    simp only [validateTimeAlignment, if_neg hne]
    exact ⟨_, rfl⟩

/-- C3 witness: close timestamps 1, 2, 3 against position timestamps 1, 2. -/
theorem C3_misalignment_rejected_witness :
    ∃ msg, runModel [(1, 100), (2, 110), (3, 99)] 0 [(1, 1), (2, 1)] =
      Except.error msg :=
  C3_misalignment_rejected [(1, 100), (2, 110), (3, 99)] [(1, 1), (2, 1)] 0
    (by decide)

/-! ## Indicator evaluation context and builtin calculates
    (indicators/indicators.py)

    Floats are idealised as ℝ (the formulas use `sqrt` and a real power).
    The shared mutable `cache` dict is a structure threaded through each
    `calculate`; `float("inf")` of `profit_loss_ratio` is `⊤ : WithTop ℝ`. -/

/-- The per-run evaluation context: the merged table columns, the quantities
    seeded by `_prepare_cache`, and one slot per indicator result. -/
structure Cache where
  times : List ℝ
  fundingCurve : List ℝ
  returns : List ℝ
  annualTradingDays : ℝ
  totalDays : ℝ
  periodsPerDay : ℝ
  total_return : Option ℝ
  annual_return : Option ℝ
  volatility : Option ℝ
  sharpe_ratio : Option ℝ
  max_drawdown : Option ℝ
  max_drawdown_duration : Option ℝ
  win_rate : Option ℝ
  avg_drawdown : Option ℝ
  profit_loss_ratio : Option (WithTop ℝ)

/-- Embedding of `Series.mean()` (0 on an empty series stands for the null the
    callers never produce). -/
noncomputable def listMean (l : List ℝ) : ℝ := l.sum / (l.length : ℝ)

/-- Embedding of `Series.std()` (sample standard deviation, ddof = 1; the
    null it returns on fewer than two samples is idealised as 0). -/
noncomputable def sampleStd (l : List ℝ) : ℝ :=
  Real.sqrt ((l.map (fun x => (x - listMean l) ^ 2)).sum / ((l.length : ℝ) - 1))

/-- Helper for `cum_max`: `m` is the running maximum so far. -/
noncomputable def cumMaxGo (m : ℝ) : List ℝ → List ℝ
  | [] => [m]
  | y :: ys => m :: cumMaxGo (max m y) ys

/-- Embedding of `Series.cum_max()`. -/
noncomputable def cumMax : List ℝ → List ℝ
  | [] => []
  | x :: xs => cumMaxGo x xs

/-- Embedding of the `drawdown` column: `(peak - funding_curve) / peak`. -/
noncomputable def drawdowns (curve : List ℝ) : List ℝ :=
  List.zipWith (fun p x => (p - x) / p) (cumMax curve) curve

/-- Embedding of `Series.max()` on a list (0 stands for the null returned on
    an empty series, which the callers never produce). -/
noncomputable def listMaxD : List ℝ → ℝ
  | [] => 0
  | d :: ds => ds.foldl max d

/-- Embedding of the `MaxDrawdown.calculate` core formula. -/
noncomputable def maxDrawdownOf (curve : List ℝ) : ℝ := listMaxD (drawdowns curve)

/-- Embedding of `Series.arg_max()`: index of the first occurrence of the
    maximum (0 stands for the null on an empty series). -/
noncomputable def argMaxGo : ℝ → ℕ → ℕ → List ℝ → ℕ
  | _, bestIdx, _, [] => bestIdx
  | best, bestIdx, i, y :: ys =>
    if best < y then argMaxGo y (i + 1) (i + 1) ys
    else argMaxGo best bestIdx (i + 1) ys

noncomputable def argMaxIdx : List ℝ → ℕ
  | [] => 0
  | x :: xs => argMaxGo x 0 0 xs

/-- Embedding of `TotalReturn.calculate`: memoized
    `curve.tail(1)[0] / curve[0] - 1`. -/
noncomputable def totalReturn_calc (c : Cache) : ℝ × Cache :=
  match c.total_return with
  | some v => (v, c)
  | none =>
    let v := c.fundingCurve.getLastD 0 / c.fundingCurve.headD 0 - 1
    (v, { c with total_return := some v })

/-- Embedding of `AnnualReturn.calculate`: memoized
    `(1 + total_return) ** (365 / actual_days) - 1` with
    `actual_days = total_periods / periods_per_day`.  Reading an absent
    `total_return` is a `KeyError` in the source; it is totalised as 0 (the
    dependency order makes the slot present in every run). -/
noncomputable def annualReturn_calc (c : Cache) : ℝ × Cache :=
  match c.annual_return with
  | some v => (v, c)
  | none =>
    let tr := c.total_return.getD 0
    let actualDays := (c.fundingCurve.length : ℝ) / c.periodsPerDay
    let v := (1 + tr) ^ ((365 : ℝ) / actualDays) - 1
    (v, { c with annual_return := some v })

/-- Embedding of `Volatility.calculate`: NOT memoized — it always recomputes
    `returns.std() * sqrt(periods_per_day * annual_trading_days)` and stores
    it. -/
noncomputable def volatility_calc (c : Cache) : ℝ × Cache :=
  let v := sampleStd c.returns * Real.sqrt (c.periodsPerDay * c.annualTradingDays)
  (v, { c with volatility := some v })

/-- Embedding of `SharpeRatio.calculate`: memoized; computes volatility on
    demand when absent; `annual_return / volatility` when `volatility ≠ 0`,
    else 0.  Reading an absent `annual_return` is a `KeyError` in the source,
    totalised as 0. -/
noncomputable def sharpeRatio_calc (c : Cache) : ℝ × Cache :=
  match c.sharpe_ratio with
  | some v => (v, c)
  | none =>
    let c1 :=
      match c.volatility with
      | some _ => c
      | none =>
        let pr := volatility_calc c
        { pr.2 with volatility := some pr.1 }
    let annualVol := c1.volatility.getD 0
    let v := if annualVol ≠ 0 then c1.annual_return.getD 0 / annualVol else 0
    (v, { c1 with sharpe_ratio := some v })

/-- Embedding of `MaxDrawdown.calculate`: memoized maximum of the drawdown
    column. -/
noncomputable def maxDrawdown_calc (c : Cache) : ℝ × Cache :=
  match c.max_drawdown with
  | some v => (v, c)
  | none =>
    let v := maxDrawdownOf c.fundingCurve
    (v, { c with max_drawdown := some v })

/-- Embedding of `MaxDrawdownDuration.calculate`: NOT memoized — recomputes
    the drawdown end point, the most recent prior peak, and their distance in
    days, then stores it. -/
noncomputable def maxDrawdownDuration_calc (c : Cache) : ℝ × Cache :=
  let dd := drawdowns c.fundingCurve
  let endTime := c.times.getD (argMaxIdx dd) 0
  let rows := c.times.zip (c.fundingCurve.zip (cumMax c.fundingCurve))
  let peakTimes :=
    (rows.filter (fun r => decide (r.1 ≤ endTime) && decide (r.2.1 = r.2.2))).map
      Prod.fst
  let startTime := peakTimes.getLastD 0
  let v := (endTime - startTime) / (24 * 3600)
  (v, { c with max_drawdown_duration := some v })

/-- Embedding of `WinRate.calculate`: returns 0 on an empty returns column
    (without caching), else `count(returns > 0) / count(returns)` (cached). -/
noncomputable def winRate_calc (c : Cache) : ℝ × Cache :=
  if c.returns.length = 0 then (0, c)
  else
    let winningTrades := (c.returns.filter (fun r => decide (0 < r))).length
    let v := (winningTrades : ℝ) / (c.returns.length : ℝ)
    (v, { c with win_rate := some v })

/-- Embedding of `AvgDrawdown.calculate`: memoized mean of the strictly
    positive drawdowns, 0 when there are none. -/
noncomputable def avgDrawdown_calc (c : Cache) : ℝ × Cache :=
  match c.avg_drawdown with
  | some v => (v, c)
  | none =>
    let nonZero := (drawdowns c.fundingCurve).filter (fun d => decide (0 < d))
    let v := if nonZero.length ≠ 0 then listMean nonZero else 0
    (v, { c with avg_drawdown := some v })

/-- Embedding of `ProfitLossRatio.calculate`: memoized;
    `avg_loss = |mean(returns < 0)|` or `float("inf")` when no losses
    (`⊤ : WithTop ℝ`); ratio is `inf if avg_profit > 0 else 0` when
    `avg_loss == 0`, else `avg_profit / avg_loss` (which is 0.0 for an
    infinite `avg_loss`, float semantics). -/
noncomputable def profitLossRatio_calc (c : Cache) : WithTop ℝ × Cache :=
  match c.profit_loss_ratio with
  | some v => (v, c)
  | none =>
    let profit := c.returns.filter (fun r => decide (0 < r))
    let loss := c.returns.filter (fun r => decide (r < 0))
    let avgProfit : ℝ := if profit.length ≠ 0 then listMean profit else 0
    let v : WithTop ℝ :=
      if loss.length ≠ 0 then
        if |listMean loss| = 0 then (if 0 < avgProfit then ⊤ else 0)
        else ((avgProfit / |listMean loss| : ℝ) : WithTop ℝ)
      else ((0 : ℝ) : WithTop ℝ)
    (v, { c with profit_loss_ratio := some v })

/-- C6: in any evaluation context holding `annual_return` and `volatility`
    (with `sharpe_ratio` not yet cached), `SharpeRatio.calculate` returns
    `annual_return / volatility` when `volatility ≠ 0` and exactly 0 when
    `volatility = 0` — a total function, never an exception or NaN. -/
theorem C6_sharpe_ratio_division (c : Cache) (ar vol : ℝ)
    (har : c.annual_return = some ar) (hvol : c.volatility = some vol)
    (hsr : c.sharpe_ratio = none) :
    (sharpeRatio_calc c).1 = if vol = 0 then 0 else ar / vol := by
  simp only [sharpeRatio_calc, hsr, hvol, har]
  by_cases h : vol = 0 <;> simp [h]

/-- A concrete context with `annual_return = 1` and `volatility = 2`. -/
noncomputable def sharpeWitnessCache : Cache :=
  Cache.mk [] [] [] 252 1 1 none (some 1) (some 2) none none none none none none

/-- C6 witness: the division branch evaluated on the concrete context. -/
theorem C6_sharpe_ratio_division_witness :
    (sharpeRatio_calc sharpeWitnessCache).1 = 1 / 2 := by
  rw [C6_sharpe_ratio_division sharpeWitnessCache 1 2 rfl rfl rfl]
  norm_num

/-- C8: for every builtin indicator and every evaluation context, invoking
    `calculate` a second time on the context produced by the first invocation
    returns exactly the first value (memoized indicators hit their cache
    slot; the non-memoized ones recompute from table columns the first call
    did not modify). -/
theorem C8_calculate_idempotent (c : Cache) :
    (totalReturn_calc (totalReturn_calc c).2).1 = (totalReturn_calc c).1 ∧
    (annualReturn_calc (annualReturn_calc c).2).1 = (annualReturn_calc c).1 ∧
    (volatility_calc (volatility_calc c).2).1 = (volatility_calc c).1 ∧
    (sharpeRatio_calc (sharpeRatio_calc c).2).1 = (sharpeRatio_calc c).1 ∧
    (maxDrawdown_calc (maxDrawdown_calc c).2).1 = (maxDrawdown_calc c).1 ∧
    (maxDrawdownDuration_calc (maxDrawdownDuration_calc c).2).1 =
      (maxDrawdownDuration_calc c).1 ∧
    (winRate_calc (winRate_calc c).2).1 = (winRate_calc c).1 ∧
    (avgDrawdown_calc (avgDrawdown_calc c).2).1 = (avgDrawdown_calc c).1 ∧
    (profitLossRatio_calc (profitLossRatio_calc c).2).1 =
      (profitLossRatio_calc c).1 := by
  refine ⟨?_, ?_, ?_, ?_, ?_, ?_, ?_, ?_, ?_⟩
  · cases h : c.total_return <;> simp [totalReturn_calc, h]
  · cases h : c.annual_return <;> simp [annualReturn_calc, h]
  · simp [volatility_calc]
  · cases h : c.sharpe_ratio <;> simp [sharpeRatio_calc, h]
  · cases h : c.max_drawdown <;> simp [maxDrawdown_calc, h]
  · simp [maxDrawdownDuration_calc]
  · by_cases h : c.returns.length = 0 <;> simp [winRate_calc, h]
  · cases h : c.avg_drawdown <;> simp [avgDrawdown_calc, h]
  · cases h : c.profit_loss_ratio <;> simp [profitLossRatio_calc, h]

/-! ### Lemmas for the max-drawdown characterisation (C7) -/

theorem le_foldl_max (ds : List ℝ) (d : ℝ) : d ≤ ds.foldl max d := by
  induction ds generalizing d with
  | nil => simp
  | cons a ds ih => exact le_trans (le_max_left d a) (ih (max d a))

theorem mem_le_foldl_max : ∀ (ds : List ℝ) (d a : ℝ), a ∈ ds → a ≤ ds.foldl max d
  | [], _, _, ha => absurd ha (List.not_mem_nil _)
  | x :: ds, d, a, ha => by
    rcases List.mem_cons.mp ha with h | h
    · subst h
      exact le_trans (le_max_right d a) (le_foldl_max ds (max d a))
    · exact mem_le_foldl_max ds (max d x) a h

theorem foldl_max_le : ∀ (ds : List ℝ) (d B : ℝ), d ≤ B → (∀ a ∈ ds, a ≤ B) →
    ds.foldl max d ≤ B
  | [], _, _, hd, _ => hd
  | x :: ds, d, B, hd, h =>
    foldl_max_le ds (max d x) B (max_le hd (h x (List.mem_cons_self x ds)))
      (fun a ha => h a (List.mem_cons_of_mem x ha))

theorem mem_le_listMaxD (l : List ℝ) (a : ℝ) (ha : a ∈ l) : a ≤ listMaxD l := by
  cases l with
  | nil => cases ha
  | cons d ds =>
    rcases List.mem_cons.mp ha with h | h
    · subst h
      exact le_foldl_max ds a
    · exact mem_le_foldl_max ds d a h

theorem zip_dd_nonneg : ∀ (ys : List ℝ) (m x : ℝ), 0 < m → x ≤ m →
    ∀ d ∈ List.zipWith (fun p x => (p - x) / p) (cumMaxGo m ys) (x :: ys), 0 ≤ d
  | [], m, x, hm, hxm, d, hd => by
    simp only [cumMaxGo, List.zipWith_cons_cons, List.zipWith_nil_right,
      List.mem_singleton] at hd
    subst hd
    exact div_nonneg (sub_nonneg.mpr hxm) hm.le
  | y :: ys, m, x, hm, hxm, d, hd => by
    simp only [cumMaxGo, List.zipWith_cons_cons, List.mem_cons] at hd
    rcases hd with hd | hd
    · subst hd
      exact div_nonneg (sub_nonneg.mpr hxm) hm.le
    · exact zip_dd_nonneg ys (max m y) y (lt_of_lt_of_le hm (le_max_left m y))
        (le_max_right m y) d hd

theorem zip_dd_zero_iff : ∀ (ys : List ℝ) (m x : ℝ), 0 < m →
    ((∀ d ∈ List.zipWith (fun p x => (p - x) / p) (cumMaxGo m ys) (x :: ys), d = 0) ↔
      cumMaxGo m ys = x :: ys)
  | [], m, x, hm => by
    simp only [cumMaxGo, List.zipWith_cons_cons, List.zipWith_nil_right,
      List.mem_singleton, forall_eq, List.cons.injEq, and_true]
    rw [div_eq_zero_iff]
    constructor
    · rintro (h | h)
      · exact sub_eq_zero.mp h
      · exact absurd h hm.ne'
    · intro h
      left
      rw [h, sub_self]
  | y :: ys, m, x, hm => by
    have hmax : 0 < max m y := lt_of_lt_of_le hm (le_max_left m y)
    have ih := zip_dd_zero_iff ys (max m y) y hmax
    simp only [cumMaxGo, List.zipWith_cons_cons, List.forall_mem_cons, List.cons.injEq]
    constructor
    · rintro ⟨h1, h2⟩
      refine ⟨?_, ih.mp h2⟩
      rcases div_eq_zero_iff.mp h1 with h | h
      · exact sub_eq_zero.mp h
      · exact absurd h hm.ne'
    · rintro ⟨h1, h2⟩
      exact ⟨by rw [h1, sub_self, zero_div], ih.mpr h2⟩

theorem cumMaxGo_eq_iff_chain : ∀ (ys : List ℝ) (m : ℝ),
    (cumMaxGo m ys = m :: ys ↔ List.Chain' (· ≤ ·) (m :: ys))
  | [], m => by simp [cumMaxGo]
  | y :: ys, m => by
    rw [List.chain'_cons]
    by_cases hmy : m ≤ y
    · simp only [cumMaxGo, List.cons.injEq, true_and, max_eq_right hmy]
      rw [cumMaxGo_eq_iff_chain ys y]
      simp [hmy]
    · simp only [cumMaxGo, List.cons.injEq, true_and]
      constructor
      · intro h
        exfalso
        have hhead : max m y = y := by
          cases ys <;> simpa [cumMaxGo] using congrArg List.head? h
        exact hmy (max_eq_right_iff.mp hhead)
      · rintro ⟨h, _⟩
        exact absurd h hmy

theorem maxDrawdownOf_spec (curve : List ℝ) (hne : curve ≠ [])
    (hpos : ∀ x ∈ curve, 0 < x) :
    0 ≤ maxDrawdownOf curve ∧
      (maxDrawdownOf curve = 0 ↔ List.Chain' (· ≤ ·) curve) := by
  obtain ⟨m, ys, rfl⟩ := List.exists_cons_of_ne_nil hne
  have hm : 0 < m := hpos m (List.mem_cons_self m ys)
  have hdd : drawdowns (m :: ys) =
      List.zipWith (fun p x => (p - x) / p) (cumMaxGo m ys) (m :: ys) := rfl
  have hnonneg : ∀ d ∈ drawdowns (m :: ys), 0 ≤ d := by
    rw [hdd]
    exact zip_dd_nonneg ys m m hm le_rfl
  have hmain : 0 ≤ maxDrawdownOf (m :: ys) := by
    unfold maxDrawdownOf
    cases hdd' : drawdowns (m :: ys) with
    | nil =>
      rw [hdd] at hdd'
      cases ys <;> simp [cumMaxGo] at hdd'
    | cons d ds =>
      have hd0 : 0 ≤ d := hnonneg d (by rw [hdd']; exact List.mem_cons_self d ds)
      exact le_trans hd0 (le_foldl_max ds d)
  refine ⟨hmain, ?_, ?_⟩
  · intro h0
    have hall : ∀ d ∈ drawdowns (m :: ys), d = 0 := by
      intro d hd
      have h1 : d ≤ 0 := by
        have := mem_le_listMaxD (drawdowns (m :: ys)) d hd
        rwa [show listMaxD (drawdowns (m :: ys)) = maxDrawdownOf (m :: ys) from rfl,
          h0] at this
      exact le_antisymm h1 (hnonneg d hd)
    rw [hdd] at hall
    exact (cumMaxGo_eq_iff_chain ys m).mp ((zip_dd_zero_iff ys m m hm).mp hall)
  · intro hchain
    have heq := (cumMaxGo_eq_iff_chain ys m).mpr hchain
    have hall : ∀ d ∈ drawdowns (m :: ys), d = 0 := by
      rw [hdd]
      exact (zip_dd_zero_iff ys m m hm).mpr heq
    refine le_antisymm ?_ hmain
    unfold maxDrawdownOf
    cases hdd' : drawdowns (m :: ys) with
    | nil => simp [listMaxD]
    | cons d ds =>
      have hd0 : d = 0 := hall d (by rw [hdd']; exact List.mem_cons_self d ds)
      exact foldl_max_le ds d 0 hd0.le
        (fun a ha => (hall a (by rw [hdd']; exact List.mem_cons_of_mem d ha)).le)

/-- C7: on every evaluation context whose funding curve is non-empty and
    strictly positive (with no stale cached slot), `MaxDrawdown.calculate`
    returns a value `≥ 0`, and it returns exactly 0 iff the curve is
    non-decreasing throughout (each point equals its running maximum). -/
theorem C7_max_drawdown_characterisation (c : Cache)
    (hmd : c.max_drawdown = none) (hne : c.fundingCurve ≠ [])
    (hpos : ∀ x ∈ c.fundingCurve, 0 < x) :
    0 ≤ (maxDrawdown_calc c).1 ∧
      ((maxDrawdown_calc c).1 = 0 ↔ List.Chain' (· ≤ ·) c.fundingCurve) := by
  have hv : (maxDrawdown_calc c).1 = maxDrawdownOf c.fundingCurve := by
    simp [maxDrawdown_calc, hmd]
  rw [hv]
  exact maxDrawdownOf_spec c.fundingCurve hne hpos

/-- A concrete context whose funding curve is the strictly increasing
    `[1, 2]`. -/
noncomputable def maxDrawdownWitnessCache : Cache :=
  Cache.mk [] [1, 2] [] 252 1 1 none none none none none none none none none

/-- C7 witness: on the curve `[1, 2]` the indicator value is nonnegative and
    its zero is equivalent to the chain condition. -/
theorem C7_max_drawdown_characterisation_witness :
    0 ≤ (maxDrawdown_calc maxDrawdownWitnessCache).1 ∧
      ((maxDrawdown_calc maxDrawdownWitnessCache).1 = 0 ↔
        List.Chain' (· ≤ ·) ([1, 2] : List ℝ)) :=
  C7_max_drawdown_characterisation maxDrawdownWitnessCache rfl
    (by simp [maxDrawdownWitnessCache]) (by norm_num [maxDrawdownWitnessCache])

end PyPosTester
